import Mathlib

/-!
Shallow embedding of the NN_MPC core of the impact-2025 repository
(src/NN_MPC/Controllers.py and src/NN_MPC/Utility.py).

Machine floats are idealised as exact rationals; IEEE special values
(NaN, +inf, -inf) are modelled explicitly by `Np.Val`, preserving the
control flow of every numpy comparison and boolean mask in the source.
External collaborators (the ipopt solve, the torch optimizer step, the
random number generator, the one-step integrator) are passed in as
explicit function/stream parameters, exactly at the call boundary where
the Python code invokes them.
-/

/-!
Exact rational arithmetic, written through `mkRat`/`Rat.divInt` so that the
kernel can evaluate it (the `Rat.add`/`Rat.mul`/`Rat.inv` of the standard
library are `@[irreducible]`).  `qadd_eq_add` etc. below prove these are
the ordinary field operations of `ℚ`.
-/

/-- Rational addition, kernel-reducible. -/
def qadd (a b : ℚ) : ℚ := mkRat (a.num * b.den + b.num * a.den) (a.den * b.den)

/-- Rational multiplication, kernel-reducible. -/
def qmul (a b : ℚ) : ℚ := mkRat (a.num * b.num) (a.den * b.den)

/-- Rational subtraction, kernel-reducible. -/
def qsub (a b : ℚ) : ℚ := mkRat (a.num * b.den - b.num * a.den) (a.den * b.den)

/-- Rational division (`a / 0 = 0`), kernel-reducible. -/
def qdiv (a b : ℚ) : ℚ := Rat.divInt (a.num * b.den) (a.den * b.num)

namespace Np

/-- A numpy float scalar: NaN, +inf, -inf, or a finite value (modelled
as an exact rational). -/
inductive Val where
  | nan : Val
  | pinf : Val
  | ninf : Val
  | fin : ℚ → Val
deriving DecidableEq, Repr

/-- IEEE-style addition (`a + b` in numpy): NaN propagates, inf + (-inf) = NaN. -/
def Val.add : Val → Val → Val
  | .nan, _ => .nan
  | _, .nan => .nan
  | .pinf, .ninf => .nan
  | .ninf, .pinf => .nan
  | .pinf, _ => .pinf
  | _, .pinf => .pinf
  | .ninf, _ => .ninf
  | _, .ninf => .ninf
  | .fin a, .fin b => .fin (qadd a b)

/-- IEEE-style negation. -/
def Val.neg : Val → Val
  | .nan => .nan
  | .pinf => .ninf
  | .ninf => .pinf
  | .fin a => .fin (-a)

/-- IEEE-style subtraction (`a - b` in numpy): inf - inf = NaN. -/
def Val.sub (a b : Val) : Val := a.add b.neg

/-- IEEE-style multiplication: NaN propagates, 0 * inf = NaN. -/
def Val.mul : Val → Val → Val
  | .nan, _ => .nan
  | _, .nan => .nan
  | .pinf, .pinf => .pinf
  | .pinf, .ninf => .ninf
  | .ninf, .pinf => .ninf
  | .ninf, .ninf => .pinf
  | .pinf, .fin b => if 0 < b then .pinf else if b < 0 then .ninf else .nan
  | .fin a, .pinf => if 0 < a then .pinf else if a < 0 then .ninf else .nan
  | .ninf, .fin b => if 0 < b then .ninf else if b < 0 then .pinf else .nan
  | .fin a, .ninf => if 0 < a then .ninf else if a < 0 then .pinf else .nan
  | .fin a, .fin b => .fin (qmul a b)

/-- The numpy boolean comparison `a <= b`: any comparison against NaN is False. -/
def Val.le : Val → Val → Bool
  | .nan, _ => false
  | _, .nan => false
  | .ninf, _ => true
  | _, .pinf => true
  | .pinf, _ => false
  | .fin _, .ninf => false
  | .fin a, .fin b => decide (a ≤ b)

/-- IEEE-style absolute value. -/
def Val.abs : Val → Val
  | .nan => .nan
  | .pinf => .pinf
  | .ninf => .pinf
  | .fin a => .fin |a|

/-- `np.isnan` on a scalar. -/
def Val.isnan : Val → Bool
  | .nan => true
  | _ => false

/-- Total order used by `np.sort`: -inf < finite < +inf, NaN sorted last. -/
def Val.sortLE : Val → Val → Bool
  | _, .nan => true
  | .nan, _ => false
  | .ninf, _ => true
  | _, .ninf => false
  | _, .pinf => true
  | .pinf, _ => false
  | .fin a, .fin b => decide (a ≤ b)

/-- Insert into a sorted list (helper for the model of `np.sort`). -/
def insertSorted (x : Val) : List Val → List Val
  | [] => [x]
  | y :: ys => if Val.sortLE x y then x :: y :: ys else y :: insertSorted x ys

/-- Model of `np.sort` on one column (insertion sort, NaN last). -/
def sortVals : List Val → List Val
  | [] => []
  | x :: xs => insertSorted x (sortVals xs)

/-- numpy's internal linear interpolation for quantiles
(`a + (b-a)*t`, computed as `b - (b-a)*(1-t)` when `t >= 0.5`). -/
def lerp (a b : Val) (t : ℚ) : Val :=
  if mkRat 1 2 ≤ t then b.sub ((b.sub a).mul (.fin (qsub 1 t)))
  else a.add ((b.sub a).mul (.fin t))

/-- Model of `np.percentile(l, q)` with the default linear interpolation:
virtual index `q/100 * (n-1)`, previous/next bracketing indices, `lerp`. -/
def percentile (l : List Val) (q : ℚ) : Val :=
  let s := sortVals l
  match s.length with
  | 0 => .nan
  | m + 1 =>
    let v : ℚ := qmul (qdiv q 100) (m : ℚ)
    let i : ℕ := (⌊v⌋).toNat
    let j : ℕ := min (i + 1) m
    let g : ℚ := qsub v (i : ℚ)
    lerp (s.getD i .nan) (s.getD j .nan) g

/-- Pairwise minimum ignoring NaN (as used by `np.nanmin` folds). -/
def nanminPair (a b : Val) : Val :=
  if a.isnan then b else if b.isnan then a else if a.le b then a else b

/-- Pairwise maximum ignoring NaN (as used by `np.nanmax` folds). -/
def nanmaxPair (a b : Val) : Val :=
  if a.isnan then b else if b.isnan then a else if a.le b then b else a

/-- `np.nanmin` of one column. -/
def colMin : List Val → Val
  | [] => .nan
  | x :: xs => xs.foldl nanminPair x

/-- `np.nanmax` of one column. -/
def colMax : List Val → Val
  | [] => .nan
  | x :: xs => xs.foldl nanmaxPair x

/-- Elementwise `np.allclose(a, b, rtol, atol)`:
`|a - b| <= atol + rtol * |b|` must hold in every component
(False whenever a NaN is involved, as in numpy). -/
def allcloseRow (a b : List Val) (rtol atol : ℚ) : Bool :=
  decide (a.length = b.length) &&
    (List.zip a b).all (fun pr =>
      (pr.1.sub pr.2).abs.le ((Val.fin atol).add ((Val.fin rtol).mul pr.2.abs)))

end Np

namespace Controllers

/-! ### MPC (Controllers.py, class MPC)

`control_plan` (lines 137-200) is embedded with the external ipopt solve
passed in as `solver : Option (X × U)`: `some (X, U)` models a solve that
returned and was sampled on the integrator grid, `none` models
`solve_limited` (or the sampling) raising.  The body reproduces the
`try:`/bare-`except:` structure of the source: the initial-state
`assert` sits inside the `try`, and because the `except:` clause is
bare, an `AssertionError` is caught exactly like a solver failure. -/

/-- The mutable `param` dict entries used by `MPC.control_plan` /
`MPC.control_action` (presence of a key models `'init_guess_X' in param`). -/
structure Param where
  init_guess_X : Option (List (List Np.Val))
  init_guess_U : Option (List (List Np.Val))
deriving DecidableEq, Repr

/-- Which branch of `control_plan` produced the returned plan. -/
inductive PlanSource where
  | solved : PlanSource
  | cached : PlanSource
  | defaultU : PlanSource
deriving DecidableEq, Repr

/-- Result of one `control_plan` call: returned `U`, returned `X`, the
`param` dict afterwards, and the branch that produced the plan. -/
structure PlanResult where
  U : List (List Np.Val)
  X : List (List Np.Val)
  p : Param
  src : PlanSource
deriving DecidableEq, Repr

/-- The bare-`except:` fallback of `control_plan` (lines 187-198): reuse the
saved guess if the `'init_guess_X'` key is present (shifting it forward by
one row), otherwise fill `U` with the default control.  `X` stays at its
pre-`try` value `X0` (the NaN-filled preallocation) in the default branch. -/
def planFallback (N_steps nu : ℕ) (default_u : Np.Val)
    (X0 : List (List Np.Val)) (p : Param) : PlanResult :=
  match p.init_guess_X with
  | some gX =>
    let gU := p.init_guess_U.getD []
    ⟨gU, gX, ⟨some gX.tail, some gU.tail⟩, .cached⟩
  | none =>
    ⟨List.replicate (N_steps + 1) (List.replicate nu default_u), X0, p, .defaultU⟩

/-- `MPC.control_plan` (lines 137-200).  On a sampled solution the tails
`X[1:]`, `U[1:]` are stored into `param` (lines 178-179) BEFORE the
initial-state assertion (line 182); if the assertion fails, the
`AssertionError` is caught by the bare `except:` and the fallback runs
against the just-updated `param`.  The final-state check (line 183) only
prints and is omitted. -/
def control_plan (nx nu N_steps : ℕ) (default_u : Np.Val)
    (solver : Option (List (List Np.Val) × List (List Np.Val)))
    (x0 : List Np.Val) (p : Param) : PlanResult :=
  let X0 := List.replicate (N_steps + 1) (List.replicate nx Np.Val.nan)
  match solver with
  | some (X, U) =>
    let p' : Param := ⟨some X.tail, some U.tail⟩
    if Np.allcloseRow (X.headD []) x0 (mkRat 1 1000) 10 then ⟨U, X, p', .solved⟩
    else planFallback N_steps nu default_u X0 p'
  | none => planFallback N_steps nu default_u X0 p

/-- `MPC.control_action` (lines 125-135) with `OCP_mode = False` and a
failing solve: calls `control_plan` and takes `U[0]` (`none` models the
`IndexError` when `U` is empty). -/
def control_action_fail (nx nu N_steps : ℕ) (default_u : Np.Val)
    (x0 : List Np.Val) (p : Param) :
    Option (List Np.Val) × Param × PlanSource :=
  let r := control_plan nx nu N_steps default_u none x0 p
  (r.U.head?, r.p, r.src)

/-- `k` consecutive `control_action` calls whose solves all fail,
threading the `param` dict through. -/
def failParams (nx nu N_steps : ℕ) (default_u : Np.Val)
    (x0 : List Np.Val) : Param → ℕ → Param
  | p, 0 => p
  | p, k + 1 =>
    failParams nx nu N_steps default_u x0
      (control_action_fail nx nu N_steps default_u x0 p).2.1 k

end Controllers

namespace Controllers

/-! ### NNMPC (Controllers.py, class NNMPC) -/

/-- A fitted `MinMaxScaler`: target feature range and the per-column data
minima/maxima recorded by `fit` (sklearn uses `np.nanmin`/`np.nanmax`). -/
structure Scaler where
  lo : ℚ
  hi : ℚ
  dataMin : List Np.Val
  dataMax : List Np.Val
deriving DecidableEq, Repr

/-- `MinMaxScaler(feature_range=(lo, hi)).fit(data)`. -/
def fitScaler (lo hi : ℚ) (data : List (List Np.Val)) : Scaler :=
  ⟨lo, hi, data.transpose.map Np.colMin, data.transpose.map Np.colMax⟩

/-- The NNMPC fields read and written by `clean_dataset`. -/
structure CleanState where
  n_inputs : ℕ
  scalerIn : Option Scaler
  scalerOut : Option Scaler
deriving DecidableEq, Repr

/-- Result of `clean_dataset`: cleaned inputs, cleaned outputs, number of
NaN rows removed, number of outlier rows removed, updated object state. -/
structure CleanResult where
  ins : List (List Np.Val)
  outs : List (List Np.Val)
  n_nans : ℕ
  n_outliers : ℕ
  state : CleanState
deriving Repr

/-- Row test for `np.all((io >= lower) & (io <= upper), axis=1)`:
every entry within its column band, with numpy NaN-is-False comparisons. -/
def rowInBand : List Np.Val → List Np.Val → List Np.Val → Bool
  | lb :: lbs, ub :: ubs, x :: xs => (lb.le x && x.le ub) && rowInBand lbs ubs xs
  | [], [], [] => true
  | _, _, _ => false

/-- `NNMPC.clean_dataset` (lines 361-390): concatenate inputs/outputs
row-wise, drop rows containing NaN (`np.isnan` mask — note this does NOT
drop infinities), drop rows outside the per-column IQR band
`[Q1 - k*IQR, Q3 + k*IQR]`, split back at `n_inputs`, and fit the two
MinMaxScalers only when `self.scalerIn` is falsy (i.e. `None`). -/
def clean_dataset (s : CleanState) (inputs outputs : List (List Np.Val))
    (out_thresh : ℚ) (lo hi : ℚ) : CleanResult :=
  let io := List.zipWith (· ++ ·) inputs outputs
  -- Remove NANs
  let io1 := io.filter (fun r => !(r.any Np.Val.isnan))
  let n_nans := io.length - io1.length
  -- Remove outliers using IQR
  let cols := io1.transpose
  let q1s := cols.map (fun c => Np.percentile c 25)
  let q3s := cols.map (fun c => Np.percentile c 75)
  let iqrs := List.zipWith Np.Val.sub q3s q1s
  let lbs := List.zipWith (fun q i => q.sub ((Np.Val.fin out_thresh).mul i)) q1s iqrs
  let ubs := List.zipWith (fun q i => q.add ((Np.Val.fin out_thresh).mul i)) q3s iqrs
  let io2 := io1.filter (rowInBand lbs ubs)
  let n_outliers := io1.length - io2.length
  let ins := io2.map (fun r => r.take s.n_inputs)
  let outs := io2.map (fun r => r.drop s.n_inputs)
  -- If necessary instantiate and tune the input and output scalers
  let s' :=
    match s.scalerIn with
    | some _ => s
    | none =>
      { s with scalerIn := some (fitScaler lo hi ins),
               scalerOut := some (fitScaler lo hi outs) }
  ⟨ins, outs, n_nans, n_outliers, s'⟩

/-! ### NNMPC.train_nn (lines 392-432)

The torch forward/backward/step calls are external: one epoch is modelled
by the pair (mse reported by the loss, network weights after the
optimizer step), supplied as a list `epochs`.  `np.inf` is modelled by
`none` in the `Option ℚ` carrying `best_mse`. -/

/-- The NNMPC fields read and written by `train_nn`. -/
structure TrainState where
  loss_history : List ℚ
  weights : List ℚ
deriving DecidableEq, Repr

/-- `mse < best_mse` where `best_mse` may be `np.inf` (`none`). -/
def ltBest (m : ℚ) : Option ℚ → Bool
  | none => true
  | some b => decide (m < b)

/-- `np.min` of a loss history, `np.inf` (`none`) when empty — the
initialisation of `best_mse` at line 404. -/
def bestInit : List ℚ → Option ℚ
  | [] => none
  | x :: xs => some (xs.foldl min x)

/-- The epoch loop of `train_nn`: append each mse to the history, keep the
best mse and the weights snapshot taken right after the epoch that achieved it. -/
def trainLoop : List (ℚ × List ℚ) → List ℚ → Option ℚ → List ℚ →
    List ℚ × Option ℚ × List ℚ
  | [], hist, best, bw => (hist, best, bw)
  | (mse, w) :: es, hist, best, bw =>
    if ltBest mse best then trainLoop es (hist ++ [mse]) (some mse) w
    else trainLoop es (hist ++ [mse]) best bw

/-- `NNMPC.train_nn`: initialise `best_mse` from the existing loss history,
initialise `best_weights` from the current weights, run the epochs, restore
the best weights.  Returns the new state and the final tracked `best_mse`. -/
def train_nn (s : TrainState) (epochs : List (ℚ × List ℚ)) :
    TrainState × Option ℚ :=
  let r := trainLoop epochs s.loss_history (bestInit s.loss_history) s.weights
  (⟨r.1, r.2.2⟩, r.2.1)

/-- `min` on `Option ℚ` where `none` is `np.inf`. -/
def minInf : Option ℚ → Option ℚ → Option ℚ
  | none, b => b
  | some a, none => some a
  | some a, some b => some (min a b)

/-! ### NNMPC persistence (lines 261-300) and control_action (302-314)

The torch network and the two fitted scalers are opaque deterministic
callables; they are modelled as records carrying their structural
dimensions and their (pure) evaluation functions, which `torch.save` /
`torch.load` serialise as-is. -/

/-- A torch `nn.Sequential`: first-layer `in_features`, last-layer
`out_features`, and the forward evaluation. -/
structure NNModel where
  in_features : ℕ
  out_features : ℕ
  forward : List ℚ → List ℚ

/-- A fitted scaler as used by `control_action`: `transform` and
`inverse_transform` as functions. -/
structure ScalerF where
  transform : List ℚ → List ℚ
  invTransform : List ℚ → List ℚ

/-- The persistent attributes of an `NNMPC` object. -/
structure NNMPC where
  n_inputs : Option ℕ
  n_outputs : Option ℕ
  selected_inputs : Option (List Bool)
  use_error : Bool
  nn_model : Option NNModel
  scalerIn : Option ScalerF
  scalerOut : Option ScalerF
  loss_history : List ℚ

/-- `NNMPC()` with no impact model: the class-level defaults. -/
def defaultNNMPC : NNMPC :=
  ⟨none, none, none, false, none, none, none, []⟩

/-- The dict written by `save_nnmpc` (lines 291-300).  An outer `some`
models the presence of the corresponding key; `load_nnmpc` tolerates
missing keys, so the artifact fields are `Option`-wrapped attribute values. -/
structure Artifact where
  nn_model : Option NNModel
  loss_history : Option (List ℚ)
  scalerIn : Option (Option ScalerF)
  scalerOut : Option (Option ScalerF)
  use_error : Option Bool
  selected_inputs : Option (Option (List Bool))

/-- `NNMPC.save_nnmpc`: every key is written. -/
def save_nnmpc (m : NNMPC) : Artifact :=
  ⟨m.nn_model, some m.loss_history, some m.scalerIn, some m.scalerOut,
   some m.use_error, some m.selected_inputs⟩

/-- `NNMPC.load_nnmpc` on a dict-form artifact (lines 261-289): set each
attribute whose key is present, recover `n_inputs`/`n_outputs` from the
stored network's first/last layers (`none` models the crash when the
artifact carries no network object), and default `selected_inputs` to
`[True] * ((n_inputs-1)//2)` when absent. -/
def load_nnmpc (a : Artifact) : Option NNMPC :=
  let m1 : NNMPC :=
    { defaultNNMPC with
      nn_model := a.nn_model,
      loss_history := a.loss_history.getD defaultNNMPC.loss_history,
      scalerIn := a.scalerIn.getD defaultNNMPC.scalerIn,
      scalerOut := a.scalerOut.getD defaultNNMPC.scalerOut,
      use_error := a.use_error.getD defaultNNMPC.use_error,
      selected_inputs := a.selected_inputs.getD defaultNNMPC.selected_inputs }
  match a.nn_model with
  | none => none
  | some nn =>
    let m2 := { m1 with n_inputs := some nn.in_features,
                        n_outputs := some nn.out_features }
    some (match m2.selected_inputs with
          | none => { m2 with
              selected_inputs := some (List.replicate ((nn.in_features - 1) / 2) true) }
          | some _ => m2)

/-- Boolean-mask selection `x[selected_inputs]`. -/
def maskSelect (sel : List Bool) (x : List ℚ) : List ℚ :=
  (List.zip x sel).filterMap (fun pr => if pr.2 then some pr.1 else none)

/-- `NNMPC.control_action` (lines 302-314): select features, build the
error- or absolute-encoded feature vector with `time2go` appended, scale,
evaluate the network, unscale.  `none` models the crash on a missing
scaler/network/mask. -/
def nnmpc_control_action (m : NNMPC) (x0 xf : List ℚ) (time2go : ℚ) :
    Option (List ℚ) :=
  match m.selected_inputs, m.scalerIn, m.scalerOut, m.nn_model with
  | some sel, some sIn, some sOut, some nn =>
    let x0s := maskSelect sel x0
    let xfs := maskSelect sel xf
    let ins := if m.use_error then List.zipWith (fun a b => a - b) xfs x0s ++ [time2go]
               else x0s ++ xfs ++ [time2go]
    some (sOut.invTransform (nn.forward (sIn.transform ins)))
  | _, _, _, _ => none

/-! ### Sharing of the class-level `loss_history` default (lines 236-259)

`NNMPC.loss_history` is a mutable class attribute (`loss_history : list = []`)
and `__init__` never assigns `self.loss_history`, so every instance
constructed through `__init__` resolves the name to the one class-level
list, and `self.loss_history.append(...)` in `train_nn` mutates it in
place.  Python attribute lookup is modelled by: an instance either owns a
rebound list (`some`) or falls through to the class attribute. -/

/-- The mutable class attribute `NNMPC.loss_history`. -/
structure ClassStore where
  classLoss : List ℚ
deriving DecidableEq, Repr

/-- An NNMPC instance's own `__dict__` entry for `loss_history`:
`none` = not set, lookup falls through to the class attribute. -/
structure PyNNMPC where
  ownLoss : Option (List ℚ)
deriving DecidableEq, Repr

/-- `NNMPC.__init__` does not assign `self.loss_history`. -/
def initNNMPC : PyNNMPC := ⟨none⟩

/-- Reading `self.loss_history` (Python attribute lookup). -/
def lossOf (s : ClassStore) (m : PyNNMPC) : List ℚ :=
  m.ownLoss.getD s.classLoss

/-- `self.loss_history.append(v)`: in-place mutation of whichever list
object the attribute lookup resolves to. -/
def appendLoss (s : ClassStore) (m : PyNNMPC) (v : ℚ) : ClassStore × PyNNMPC :=
  match m.ownLoss with
  | none => (⟨s.classLoss ++ [v]⟩, m)
  | some own => (s, ⟨some (own ++ [v])⟩)

/-- The `self.loss_history.append(mse)` calls of one `train_nn` run. -/
def trainAppends (s : ClassStore) (m : PyNNMPC) : List ℚ → ClassStore × PyNNMPC
  | [] => (s, m)
  | v :: vs =>
    let r := appendLoss s m v
    trainAppends r.1 r.2 vs

end Controllers

namespace Utility

/-! ### Simulator (Utility.py, class Simulator)

The one-step integrator `impact_model.sim_step` and the controller's
`control_action` are external collaborators passed as functions.  The
Gaussian draws `np.random.normal(0, sigma, n)` are modelled as
`sigma • stream n` with a per-step unit-noise stream: the configured
standard deviations (`noise_u`, and `sqrt(dt) * noise_dyn` folded into
the stream for the process noise) scale a draw that does not depend on
them.  States and controls here are exact-rational vectors. -/

/-- `int(np.ceil(q))` for the nonnegative arguments used by the Simulator. -/
def ceilPos (q : ℚ) : ℕ := (⌈q⌉).toNat

/-- Simulator configuration: horizon, sampling time, noise levels. -/
structure SimParams where
  Tf : ℚ
  dt : ℚ
  noise_dyn : ℚ
  noise_u : ℚ

/-- Vector addition (numpy elementwise `+`). -/
def vadd (a b : List ℚ) : List ℚ := List.zipWith qadd a b

/-- Scalar times vector. -/
def smul (c : ℚ) (v : List ℚ) : List ℚ := v.map (qmul c)

/-- `time2go = Tf - t[now]` with `t = np.linspace(0, Tf, N+1)`, so
`t[now] = Tf * now / N`. -/
def time2go (P : SimParams) (N now : ℕ) : ℚ :=
  qsub P.Tf (qdiv (qmul P.Tf (now : ℚ)) (N : ℚ))

/-- The noisy control actually applied at step `now` of the closed loop
(lines 42-43): `controller.control_action` plus actuation noise. -/
def ctrlNoisy (P : SimParams) (ctrl : List ℚ → List ℚ → ℚ → ℕ → List ℚ)
    (nU : ℕ → List ℚ) (xf : List ℚ) (N : ℕ) (now : ℕ) (x : List ℚ) : List ℚ :=
  vadd (ctrl x xf (time2go P N now) now) (smul P.noise_u (nU now))

/-- The next state of the closed loop (lines 44-48): one integrator step
under the noisy control, plus process noise only while `time2go > 0.5`. -/
def stepNoisy (P : SimParams) (step : List ℚ → List ℚ → ℚ → List ℚ)
    (ctrl : List ℚ → List ℚ → ℚ → ℕ → List ℚ)
    (nU nX : ℕ → List ℚ) (xf : List ℚ) (N : ℕ) (now : ℕ) (x : List ℚ) : List ℚ :=
  let xn := step x (ctrlNoisy P ctrl nU xf N now x) P.dt
  if mkRat 1 2 < time2go P N now then vadd xn (smul P.noise_dyn (nX now)) else xn

/-- The stepping loop of `Simulator.simulate` (lines 37-52), recursion on
the number of remaining steps: returns the state rows `X[now..]` and the
control rows `U[now..]` written by the loop (one control per executed step). -/
def simSteps (P : SimParams) (step : List ℚ → List ℚ → ℚ → List ℚ)
    (ctrl : List ℚ → List ℚ → ℚ → ℕ → List ℚ)
    (nU nX : ℕ → List ℚ) (xf : List ℚ) (N : ℕ) :
    ℕ → ℕ → List ℚ → List (List ℚ) × List (List ℚ)
  | _, 0, x => ([x], [])
  | now, r + 1, x =>
    let rest := simSteps P step ctrl nU nX xf N (now + 1) r
        (stepNoisy P step ctrl nU nX xf N now x)
    (x :: rest.1, ctrlNoisy P ctrl nU xf N now x :: rest.2)

/-- `Simulator.simulate` with `closed_loop=True` (lines 27-63):
`N_steps = int(np.ceil(Tf/dt))`, `t = np.linspace(0, Tf, N_steps+1)`,
step the loop, then append `U[-1] = U[-2]` (requires `N_steps >= 1`;
with `N_steps = 0` the source raises an IndexError there). -/
def simulate_cl (P : SimParams) (step : List ℚ → List ℚ → ℚ → List ℚ)
    (ctrl : List ℚ → List ℚ → ℚ → ℕ → List ℚ)
    (nU nX : ℕ → List ℚ) (x0 xf : List ℚ) :
    List (List ℚ) × List (List ℚ) × List ℚ :=
  let N := ceilPos (qdiv P.Tf P.dt)
  let t := (List.range (N + 1)).map (fun i => qdiv (qmul P.Tf (i : ℚ)) (N : ℚ))
  let r := simSteps P step ctrl nU nX xf N 0 N x0
  (r.1, r.2 ++ [r.2.getLastD []], t)

/-! ### Simulator.simulate_multi (lines 65-110) -/

/-- One simulated trajectory as stored into the batch arrays; entries are
numpy floats, so a failed simulation can carry NaNs. -/
structure Traj where
  X : List (List Np.Val)
  U : List (List Np.Val)
  t : List ℚ

/-- The four batch arrays of `simulate_multi`. -/
structure MultiResult where
  X_series : List (List (List Np.Val))
  U_series : List (List (List Np.Val))
  R_series : List (List (List Np.Val))
  T_series : List (List ℚ)

/-- The `(x0, xf)` pairs visited by the triple loop of `simulate_multi`,
in loop order: `x0` outer, `xf` middle, repeat inner. -/
def combos (x0s xfs : List (List Np.Val)) (n_times : ℕ) :
    List (List Np.Val × List Np.Val) :=
  x0s.flatMap (fun x0 => xfs.flatMap (fun xf => List.replicate n_times (x0, xf)))

/-- The batch arrays as filled by the loop, before NaN pruning.
`sim cnt x0 xf` is the `self.simulate(...)` call for trajectory counter
`cnt`; `R_series[cnt] = np.tile(xf, (N_points+1, 1))`. -/
def preSeries (sim : ℕ → List Np.Val → List Np.Val → Traj)
    (x0s xfs : List (List Np.Val)) (n_times nPoints : ℕ) : MultiResult :=
  let runs := (combos x0s xfs n_times).enum
  ⟨runs.map (fun pr => (sim pr.1 pr.2.1 pr.2.2).X),
   runs.map (fun pr => (sim pr.1 pr.2.1 pr.2.2).U),
   runs.map (fun pr => List.replicate (nPoints + 1) pr.2.2),
   runs.map (fun pr => (sim pr.1 pr.2.1 pr.2.2).t)⟩

/-- Boolean-mask row selection `arr[mask]` on the leading axis. -/
def maskFilter : List Bool → List α → List α
  | [], _ => []
  | _ :: _, [] => []
  | b :: ms, x :: xs => if b then x :: maskFilter ms xs else maskFilter ms xs

/-- `~np.isnan(X_series).any(axis=(1,2))` per trajectory. -/
def trajOk (X : List (List Np.Val)) : Bool :=
  !(X.any (fun row => row.any Np.Val.isnan))

/-- `Simulator.simulate_multi` (lines 65-110): run the triple loop, then
remove every trajectory whose states contain a NaN, applying the one mask
computed from `X_series` to all four arrays. -/
def simulate_multi (sim : ℕ → List Np.Val → List Np.Val → Traj)
    (x0s xfs : List (List Np.Val)) (n_times nPoints : ℕ) : MultiResult :=
  let pre := preSeries sim x0s xfs n_times nPoints
  let mask := pre.X_series.map trajOk
  ⟨maskFilter mask pre.X_series, maskFilter mask pre.U_series,
   maskFilter mask pre.R_series, maskFilter mask pre.T_series⟩

/-- The four batch arrays zipped into one list of rows (used to state the
partner-mapping invariant). -/
def zip4 (r : MultiResult) :
    List (List (List Np.Val) × List (List Np.Val) × List (List Np.Val) × List ℚ) :=
  List.zip r.X_series (List.zip r.U_series (List.zip r.R_series r.T_series))

end Utility

namespace Utility

/-- The state reached after `i` executed steps of the closed loop, starting
from state `x` at step index `now` (specification device for `simSteps`). -/
def iterState (P : SimParams) (step : List ℚ → List ℚ → ℚ → List ℚ)
    (ctrl : List ℚ → List ℚ → ℚ → ℕ → List ℚ)
    (nU nX : ℕ → List ℚ) (xf : List ℚ) (N : ℕ) :
    ℕ → ℕ → List ℚ → List ℚ
  | _, 0, x => x
  | now, i + 1, x =>
    iterState P step ctrl nU nX xf N (now + 1) i (stepNoisy P step ctrl nU nX xf N now x)

end Utility

namespace Fixtures

/-- Concrete two-layer-free network for round-trip instantiation. -/
def nnW : Controllers.NNModel :=
  ⟨5, 2, fun v => [v.headD 0, v.getD 1 0]⟩

/-- Concrete fitted scaler (an affine bijection) for instantiation. -/
def scW : Controllers.ScalerF :=
  ⟨fun v => v.map (fun q => 2 * q), fun v => v.map (fun q => q / 2)⟩

/-- A concrete trained `NNMPC` object (structure matching `nnW`). -/
def mW : Controllers.NNMPC :=
  ⟨some 5, some 2, some [true, true], false, some nnW, some scW, some scW, [1, 2]⟩

/-- Trivial dynamics for concrete simulator runs: the state is frozen. -/
def stepFrozen : List ℚ → List ℚ → ℚ → List ℚ := fun x _ _ => x

/-- Scalar integrator dynamics for concrete simulator runs. -/
def stepScalar : List ℚ → List ℚ → ℚ → List ℚ :=
  fun x u d => [x.headD 0 + u.headD 0 * d]

/-- Constant unit controller. -/
def ctrlOne : List ℚ → List ℚ → ℚ → ℕ → List ℚ := fun _ _ _ _ => [1]

/-- Constant zero controller. -/
def ctrlZero : List ℚ → List ℚ → ℚ → ℕ → List ℚ := fun _ _ _ _ => [0]

/-- Constant unit-noise stream. -/
def noiseThree : ℕ → List ℚ := fun _ => [3]

/-- Zero noise stream. -/
def noiseZero : ℕ → List ℚ := fun _ => [0]

end Fixtures

/-! ## Claim theorems -/

/-- **C1**: when the solver returns a sampled solution whose `X[0]` differs
from the commanded `x0` beyond tolerance (rtol=1e-3, atol=10), the
`assert` at Controllers.py:182 raises — but the raise is caught by the
bare `except:` of the same `try` block, so `control_plan` RETURNS
normally through the cached-plan recovery path (source `.cached`, using
the tail of the very solution that failed the check) instead of
propagating the fault to the caller.  Evaluated at a concrete failing
input: `x0 = [0]`, sampled `X = [[100],[100]]` (mismatch 100 > 10). -/
theorem control_plan_assert_swallowed :
    Np.allcloseRow [Np.Val.fin 100] [Np.Val.fin 0] (mkRat 1 1000) 10 = false ∧
    Controllers.control_plan 1 1 1 Np.Val.nan
        (some ([[Np.Val.fin 100], [Np.Val.fin 100]], [[Np.Val.fin 0], [Np.Val.fin 0]]))
        [Np.Val.fin 0] ⟨none, none⟩
      = ⟨[[Np.Val.fin 0]], [[Np.Val.fin 100]], ⟨some [], some []⟩,
          Controllers.PlanSource.cached⟩ := by
  constructor
  · decide
  · decide

/-- **C2 (counterexample)**: the claim says `best_mse` initialises to the
MAXIMUM of the existing loss history.  With history `[2, 5]` (maximum 5)
and no epochs, `train_nn` returns the tracked best `2` — the code takes
`np.min`, not the maximum. -/
theorem train_nn_init_not_max :
    (Controllers.train_nn ⟨[2, 5], []⟩ []).2 = some 2 ∧
    ¬ ((some (2 : ℚ) : Option ℚ) = some 5) := by
  constructor
  · decide
  · decide

/-! ## Arithmetic layer correctness -/

theorem qadd_eq_add (a b : ℚ) : qadd a b = a + b := by
  have h1 : (a.den : ℚ) ≠ 0 := by exact_mod_cast a.den_nz
  have h2 : (b.den : ℚ) ≠ 0 := by exact_mod_cast b.den_nz
  have ha : (a.num : ℚ) = a * a.den := (div_eq_iff h1).mp (Rat.num_div_den a)
  have hb : (b.num : ℚ) = b * b.den := (div_eq_iff h2).mp (Rat.num_div_den b)
  rw [qadd, Rat.mkRat_eq_div]
  push_cast
  field_simp
  linear_combination (b.den : ℚ) * ha + (a.den : ℚ) * hb

theorem qmul_eq_mul (a b : ℚ) : qmul a b = a * b := by
  have h1 : (a.den : ℚ) ≠ 0 := by exact_mod_cast a.den_nz
  have h2 : (b.den : ℚ) ≠ 0 := by exact_mod_cast b.den_nz
  have ha : (a.num : ℚ) = a * a.den := (div_eq_iff h1).mp (Rat.num_div_den a)
  have hb : (b.num : ℚ) = b * b.den := (div_eq_iff h2).mp (Rat.num_div_den b)
  rw [qmul, Rat.mkRat_eq_div]
  push_cast
  field_simp
  linear_combination (b.num : ℚ) * ha + a * (a.den : ℚ) * hb

theorem qsub_eq_sub (a b : ℚ) : qsub a b = a - b := by
  have h1 : (a.den : ℚ) ≠ 0 := by exact_mod_cast a.den_nz
  have h2 : (b.den : ℚ) ≠ 0 := by exact_mod_cast b.den_nz
  have ha : (a.num : ℚ) = a * a.den := (div_eq_iff h1).mp (Rat.num_div_den a)
  have hb : (b.num : ℚ) = b * b.den := (div_eq_iff h2).mp (Rat.num_div_den b)
  rw [qsub, Rat.mkRat_eq_div]
  push_cast
  field_simp
  linear_combination (b.den : ℚ) * ha - (a.den : ℚ) * hb

theorem qdiv_eq_div (a b : ℚ) : qdiv a b = a / b := by
  rcases eq_or_ne b 0 with hb | hb
  · subst hb
    simp [qdiv]
  · have h1 : (a.den : ℚ) ≠ 0 := by exact_mod_cast a.den_nz
    have h2 : (b.den : ℚ) ≠ 0 := by exact_mod_cast b.den_nz
    have hbn : (b.num : ℚ) ≠ 0 := by exact_mod_cast Rat.num_ne_zero.mpr hb
    have ha : (a.num : ℚ) = a * a.den := (div_eq_iff h1).mp (Rat.num_div_den a)
    have hbq : (b.num : ℚ) = b * b.den := (div_eq_iff h2).mp (Rat.num_div_den b)
    rw [qdiv, Rat.divInt_eq_div]
    push_cast
    rw [div_eq_div_iff (mul_ne_zero h1 hbn) hb]
    linear_combination b * (b.den : ℚ) * ha - a * (a.den : ℚ) * hbq

/-! ## Shared helper lemmas -/

theorem minInf_none (b : Option ℚ) : Controllers.minInf b none = b := by
  cases b <;> rfl

theorem foldlMin (l : List ℚ) (a b : ℚ) :
    l.foldl min (min a b) = min a (l.foldl min b) := by
  induction l generalizing b with
  | nil => rfl
  | cons c l ih =>
    simp only [List.foldl_cons]
    rw [min_assoc, ih]

theorem bestInit_cons (m : ℚ) (l : List ℚ) :
    Controllers.bestInit (m :: l) = Controllers.minInf (some m) (Controllers.bestInit l) := by
  cases l with
  | nil => rfl
  | cons y ys =>
    simp only [Controllers.bestInit, Controllers.minInf, List.foldl_cons]
    rw [foldlMin]

theorem minInf_step (best : Option ℚ) (m : ℚ) (z : Option ℚ) :
    Controllers.minInf (if Controllers.ltBest m best then some m else best) z
      = Controllers.minInf best (Controllers.minInf (some m) z) := by
  cases best with
  | none => simp [Controllers.ltBest, Controllers.minInf]
  | some b =>
    have hmb : (if Controllers.ltBest m (some b) then some m else some b)
        = some (min b m) := by
      simp only [Controllers.ltBest]
      rcases lt_or_ge m b with h | h
      · rw [if_pos (by exact decide_eq_true h), min_eq_right (le_of_lt h)]
      · rw [if_neg (by simp [decide_eq_true_eq]; exact h), min_eq_left h]
    rw [hmb]
    cases z with
    | none => simp [Controllers.minInf]
    | some c => simp [Controllers.minInf, min_assoc]

theorem trainLoop_best (es : List (ℚ × List ℚ)) :
    ∀ (hist : List ℚ) (best : Option ℚ) (bw : List ℚ),
      (Controllers.trainLoop es hist best bw).2.1
        = Controllers.minInf best (Controllers.bestInit (es.map Prod.fst)) := by
  induction es with
  | nil =>
    intro hist best bw
    rw [Controllers.trainLoop]
    simp [Controllers.bestInit, minInf_none]
  | cons e es ih =>
    intro hist best bw
    obtain ⟨m, w⟩ := e
    rw [Controllers.trainLoop]
    by_cases h : Controllers.ltBest m best
    · rw [if_pos h, ih, List.map_cons, bestInit_cons, ← minInf_step, if_pos h]
    · rw [if_neg h, ih, List.map_cons, bestInit_cons, ← minInf_step, if_neg h]

theorem trainLoop_hist (es : List (ℚ × List ℚ)) :
    ∀ (hist : List ℚ) (best : Option ℚ) (bw : List ℚ),
      (Controllers.trainLoop es hist best bw).1 = hist ++ es.map Prod.fst := by
  induction es with
  | nil => intro hist best bw; rw [Controllers.trainLoop]; simp
  | cons e es ih =>
    intro hist best bw
    obtain ⟨m, w⟩ := e
    rw [Controllers.trainLoop]
    by_cases h : Controllers.ltBest m best
    · rw [if_pos h, ih]; simp
    · rw [if_neg h, ih]; simp

theorem bestInit_append (l1 l2 : List ℚ) :
    Controllers.bestInit (l1 ++ l2)
      = Controllers.minInf (Controllers.bestInit l1) (Controllers.bestInit l2) := by
  induction l1 with
  | nil => simp [Controllers.bestInit, Controllers.minInf]
  | cons x l1 ih =>
    rw [List.cons_append, bestInit_cons, ih, bestInit_cons]
    generalize Controllers.bestInit l1 = u
    generalize Controllers.bestInit l2 = v
    cases u <;> cases v <;> simp [Controllers.minInf, min_assoc]

/-- **C2 (amended)**: `train_nn` initialises the tracked best MSE to the
MINIMUM of the existing loss history (infinity — `none` — when the history
is empty), so after any `train_nn` call the tracked best equals the minimum
over the full accumulated history (previous calls included): repeated
training calls keep improving the monotonically tracked best weights
rather than resetting. -/
theorem train_nn_best_is_min_of_full_history
    (s : Controllers.TrainState) (epochs : List (ℚ × List ℚ)) :
    (Controllers.train_nn s epochs).2
      = Controllers.bestInit (s.loss_history ++ epochs.map Prod.fst) ∧
    (Controllers.train_nn s epochs).1.loss_history
      = s.loss_history ++ epochs.map Prod.fst := by
  constructor
  · show (Controllers.trainLoop epochs s.loss_history
        (Controllers.bestInit s.loss_history) s.weights).2.1 = _
    rw [trainLoop_best, bestInit_append]
  · show (Controllers.trainLoop epochs s.loss_history
        (Controllers.bestInit s.loss_history) s.weights).1 = _
    rw [trainLoop_hist]

/-- **C9**: all `NNMPC` instances constructed via `__init__` share the one
class-level `loss_history` list (`loss_history : list = []` is a mutable
class attribute and `__init__` never rebinds it), so (a) an append performed
through one instance is observed through any other instance, and (b) the
`train_nn` appends of one instance are seen, in full, by an `NNMPC`
constructed afterwards, which therefore starts with the accumulated
(non-empty) history instead of an independent empty one. -/
theorem loss_history_shared_across_instances
    (s : Controllers.ClassStore) (v : ℚ) (losses : List ℚ) :
    Controllers.lossOf
        (Controllers.appendLoss s Controllers.initNNMPC v).1 Controllers.initNNMPC
      = Controllers.lossOf s Controllers.initNNMPC ++ [v] ∧
    Controllers.lossOf
        (Controllers.trainAppends s Controllers.initNNMPC losses).1 Controllers.initNNMPC
      = Controllers.lossOf s Controllers.initNNMPC ++ losses := by
  constructor
  · rfl
  · induction losses generalizing s with
    | nil => simp [Controllers.trainAppends]
    | cons x xs ih =>
      show Controllers.lossOf (Controllers.trainAppends ⟨s.classLoss ++ [x]⟩
          Controllers.initNNMPC xs).1 Controllers.initNNMPC = _
      rw [ih]
      simp [Controllers.lossOf, Controllers.initNNMPC]

/-- **C3 (counterexample)**: cleaning already-cleaned data a second time
(scalers fitted by the first call) can CHANGE the row count: on the
one-column dataset `[0,0,0,1,10]` (outputs all zero) the first call keeps
4 rows, and the second call — recomputing the quartiles on the filtered
data — keeps only 3. -/
theorem clean_dataset_not_idempotent :
    (let c1 := Controllers.clean_dataset ⟨1, none, none⟩
        [[Np.Val.fin 0], [Np.Val.fin 0], [Np.Val.fin 0], [Np.Val.fin 1], [Np.Val.fin 10]]
        [[Np.Val.fin 0], [Np.Val.fin 0], [Np.Val.fin 0], [Np.Val.fin 0], [Np.Val.fin 0]]
        (mkRat 3 2) (-1) 1
    let c2 := Controllers.clean_dataset c1.state c1.ins c1.outs (mkRat 3 2) (-1) 1
    c1.ins.length = 4 ∧ c2.ins.length = 3 ∧ c1.state.scalerIn.isSome) := by
  decide

/-- **C3 (amended)**: a second `clean_dataset` call on data cleaned with the
scalers already fitted refits neither scaler — the whole object state is
unchanged — but the number of returned rows is only guaranteed not to
increase (the IQR band is recomputed on the filtered data, so it may
strictly shrink, as the counterexample shows). -/
theorem clean_dataset_preserves_fitted_scalers
    (s : Controllers.CleanState) (h : s.scalerIn.isSome)
    (inputs outputs : List (List Np.Val)) (th lo hi : ℚ) :
    (Controllers.clean_dataset s inputs outputs th lo hi).state = s ∧
    (Controllers.clean_dataset s inputs outputs th lo hi).ins.length
      ≤ inputs.length := by
  obtain ⟨sc, hsc⟩ := Option.isSome_iff_exists.mp h
  constructor
  · simp [Controllers.clean_dataset, hsc]
  · have h1 : (Controllers.clean_dataset s inputs outputs th lo hi).ins.length
        ≤ (List.zipWith (· ++ ·) inputs outputs).length := by
      simp only [Controllers.clean_dataset, List.length_map]
      exact le_trans (List.length_filter_le _ _) (List.length_filter_le _ _)
    refine le_trans h1 ?_
    rw [List.length_zipWith]
    exact min_le_left _ _

/-- Witness for the amended C3 theorem at a concrete fitted state. -/
theorem clean_dataset_preserves_fitted_scalers_witness :
    ((⟨1, some ⟨-1, 1, [Np.Val.fin 0], [Np.Val.fin 1]⟩,
        some ⟨-1, 1, [Np.Val.fin 0], [Np.Val.fin 1]⟩⟩ :
          Controllers.CleanState).scalerIn.isSome) ∧
    ((Controllers.clean_dataset
        ⟨1, some ⟨-1, 1, [Np.Val.fin 0], [Np.Val.fin 1]⟩,
          some ⟨-1, 1, [Np.Val.fin 0], [Np.Val.fin 1]⟩⟩
        [[Np.Val.fin 0]] [[Np.Val.fin 0]] (mkRat 3 2) (-1) 1).state
      = ⟨1, some ⟨-1, 1, [Np.Val.fin 0], [Np.Val.fin 1]⟩,
          some ⟨-1, 1, [Np.Val.fin 0], [Np.Val.fin 1]⟩⟩ ∧
    (Controllers.clean_dataset
        ⟨1, some ⟨-1, 1, [Np.Val.fin 0], [Np.Val.fin 1]⟩,
          some ⟨-1, 1, [Np.Val.fin 0], [Np.Val.fin 1]⟩⟩
        [[Np.Val.fin 0]] [[Np.Val.fin 0]] (mkRat 3 2) (-1) 1).ins.length
      ≤ ([[Np.Val.fin 0]] : List (List Np.Val)).length) :=
  ⟨rfl, clean_dataset_preserves_fitted_scalers
    ⟨1, some ⟨-1, 1, [Np.Val.fin 0], [Np.Val.fin 1]⟩,
      some ⟨-1, 1, [Np.Val.fin 0], [Np.Val.fin 1]⟩⟩ rfl
    [[Np.Val.fin 0]] [[Np.Val.fin 0]] (mkRat 3 2) (-1) 1⟩

/-- **C4 (counterexample)**: `clean_dataset` removes only NaN rows before
the IQR filter (`np.isnan` is False on infinities), and rows containing
`+inf` can even survive the IQR filter: on the one-column dataset with six
zeros and two `+inf` rows, `Q3 = +inf`, the band becomes `(-inf, +inf)`,
every row is kept (`n_nans = 0`, `n_outliers = 0`) and the returned inputs
still contain the `+inf` rows. -/
theorem clean_dataset_keeps_infinite_rows :
    (let c := Controllers.clean_dataset ⟨1, none, none⟩
        [[Np.Val.fin 0], [Np.Val.fin 0], [Np.Val.fin 0], [Np.Val.fin 0],
         [Np.Val.fin 0], [Np.Val.fin 0], [Np.Val.pinf], [Np.Val.pinf]]
        [[Np.Val.fin 0], [Np.Val.fin 0], [Np.Val.fin 0], [Np.Val.fin 0],
         [Np.Val.fin 0], [Np.Val.fin 0], [Np.Val.fin 0], [Np.Val.fin 0]]
        (mkRat 3 2) (-1) 1
    c.ins = [[Np.Val.fin 0], [Np.Val.fin 0], [Np.Val.fin 0], [Np.Val.fin 0],
             [Np.Val.fin 0], [Np.Val.fin 0], [Np.Val.pinf], [Np.Val.pinf]] ∧
    c.n_nans = 0 ∧ c.n_outliers = 0) := by
  decide

/-- **C4 (amended)**: `clean_dataset` drops every row containing a NaN
before the IQR filter, and no row containing a NaN appears in the returned
inputs or outputs; rows containing `±inf` are NOT dropped by that mask and
may appear in the returned data. -/
theorem clean_dataset_output_nan_free
    (s : Controllers.CleanState) (inputs outputs : List (List Np.Val))
    (th lo hi : ℚ) :
    ((Controllers.clean_dataset s inputs outputs th lo hi).ins.all
        (fun r => !(r.any Np.Val.isnan))) = true ∧
    ((Controllers.clean_dataset s inputs outputs th lo hi).outs.all
        (fun r => !(r.any Np.Val.isnan))) = true := by
  have key : ∀ r ∈ (List.zipWith (· ++ ·) inputs outputs).filter
      (fun r => !(r.any Np.Val.isnan)), r.any Np.Val.isnan = false := by
    intro r hr
    have h2 := (List.mem_filter.mp hr).2
    simpa using h2
  constructor
  · simp only [Controllers.clean_dataset, List.all_eq_true, List.mem_map]
    rintro x ⟨r, hr, rfl⟩
    have hr1 : r.any Np.Val.isnan = false := key r (List.mem_of_mem_filter hr)
    rw [List.any_eq_false] at hr1
    simp only [Bool.not_eq_true', List.any_eq_false]
    intro v hv
    exact hr1 v (List.mem_of_mem_take hv)
  · simp only [Controllers.clean_dataset, List.all_eq_true, List.mem_map]
    rintro x ⟨r, hr, rfl⟩
    have hr1 : r.any Np.Val.isnan = false := key r (List.mem_of_mem_filter hr)
    rw [List.any_eq_false] at hr1
    simp only [Bool.not_eq_true', List.any_eq_false]
    intro v hv
    exact hr1 v (List.mem_of_mem_drop hv)

/-- **C5**: for a trained `NNMPC` (network present, `n_inputs`/`n_outputs`
consistent with the stored network's first/last layers, feature mask set —
all guaranteed by the construction/training flow), `save_nnmpc` followed by
`load_nnmpc` yields a controller with identical `n_inputs`, `n_outputs`,
approximator, both normalizers, error/absolute flag, selected-feature mask
and loss history — and hence an identical `control_action` output on every
fixed `(x0, xf, time2go)` input. -/
theorem save_load_roundtrip (m : Controllers.NNMPC) (nn : Controllers.NNModel)
    (hm : m.nn_model = some nn)
    (hin : m.n_inputs = some nn.in_features)
    (hout : m.n_outputs = some nn.out_features)
    (hsel : m.selected_inputs.isSome) :
    ∃ m' : Controllers.NNMPC,
      Controllers.load_nnmpc (Controllers.save_nnmpc m) = some m' ∧
      m'.n_inputs = m.n_inputs ∧ m'.n_outputs = m.n_outputs ∧
      m'.nn_model = m.nn_model ∧
      m'.scalerIn = m.scalerIn ∧ m'.scalerOut = m.scalerOut ∧
      m'.use_error = m.use_error ∧
      m'.selected_inputs = m.selected_inputs ∧
      m'.loss_history = m.loss_history ∧
      ∀ x0 xf t2g, Controllers.nnmpc_control_action m' x0 xf t2g
        = Controllers.nnmpc_control_action m x0 xf t2g := by
  obtain ⟨sel, hs⟩ := Option.isSome_iff_exists.mp hsel
  refine ⟨m, ?_, rfl, rfl, rfl, rfl, rfl, rfl, rfl, rfl, fun _ _ _ => rfl⟩
  cases m with
  | mk ni no si ue nnm sIn sOut lh =>
    simp only at hm hin hout hs
    subst hm hin hout hs
    simp [Controllers.load_nnmpc, Controllers.save_nnmpc, Controllers.defaultNNMPC]

/-- Witness for the C5 round-trip theorem at a concrete trained controller. -/
theorem save_load_roundtrip_witness :
    Fixtures.mW.nn_model = some Fixtures.nnW ∧
    Fixtures.mW.n_inputs = some Fixtures.nnW.in_features ∧
    Fixtures.mW.n_outputs = some Fixtures.nnW.out_features ∧
    Fixtures.mW.selected_inputs.isSome ∧
    (∃ m' : Controllers.NNMPC,
      Controllers.load_nnmpc (Controllers.save_nnmpc Fixtures.mW) = some m' ∧
      m'.n_inputs = Fixtures.mW.n_inputs ∧ m'.n_outputs = Fixtures.mW.n_outputs ∧
      m'.nn_model = Fixtures.mW.nn_model ∧
      m'.scalerIn = Fixtures.mW.scalerIn ∧ m'.scalerOut = Fixtures.mW.scalerOut ∧
      m'.use_error = Fixtures.mW.use_error ∧
      m'.selected_inputs = Fixtures.mW.selected_inputs ∧
      m'.loss_history = Fixtures.mW.loss_history ∧
      ∀ x0 xf t2g, Controllers.nnmpc_control_action m' x0 xf t2g
        = Controllers.nnmpc_control_action Fixtures.mW x0 xf t2g) :=
  ⟨rfl, rfl, rfl, rfl,
    save_load_roundtrip Fixtures.mW Fixtures.nnW rfl rfl rfl rfl⟩

theorem maskFilter_sublist (m : List Bool) :
    ∀ (l : List α), List.Sublist (Utility.maskFilter m l) l := by
  induction m with
  | nil => intro l; exact List.nil_sublist l
  | cons b ms ih =>
    intro l
    cases l with
    | nil => exact List.nil_sublist []
    | cons x xs =>
      rw [Utility.maskFilter]
      by_cases hb : b = true
      · rw [if_pos hb]; exact List.Sublist.cons₂ x (ih xs)
      · rw [if_neg hb]; exact List.Sublist.cons x (ih xs)

theorem maskFilter_length_eq (m : List Bool) :
    ∀ (l1 : List α) (l2 : List β), l1.length = l2.length →
      (Utility.maskFilter m l1).length = (Utility.maskFilter m l2).length := by
  induction m with
  | nil => intro l1 l2 _; rfl
  | cons b ms ih =>
    intro l1 l2 h
    cases l1 with
    | nil => cases l2 with
      | nil => rfl
      | cons y ys => simp at h
    | cons x xs =>
      cases l2 with
      | nil => simp at h
      | cons y ys =>
        simp only [List.length_cons, Nat.succ.injEq] at h
        rw [Utility.maskFilter, Utility.maskFilter]
        by_cases hb : b = true
        · rw [if_pos hb, if_pos hb]
          simp only [List.length_cons]
          rw [ih xs ys h]
        · rw [if_neg hb, if_neg hb]
          exact ih xs ys h

theorem maskFilter_zip (m : List Bool) :
    ∀ (l1 : List α) (l2 : List β), l1.length = l2.length →
      Utility.maskFilter m (List.zip l1 l2)
        = List.zip (Utility.maskFilter m l1) (Utility.maskFilter m l2) := by
  induction m with
  | nil => intro l1 l2 _; rfl
  | cons b ms ih =>
    intro l1 l2 h
    cases l1 with
    | nil => cases l2 with
      | nil => rfl
      | cons y ys => simp at h
    | cons x xs =>
      cases l2 with
      | nil => simp at h
      | cons y ys =>
        simp only [List.length_cons, Nat.succ.injEq] at h
        simp only [List.zip_cons_cons, Utility.maskFilter]
        have hzip : List.zipWith Prod.mk xs ys = xs.zip ys := rfl
        by_cases hb : b = true
        · rw [if_pos hb, if_pos hb, if_pos hb, hzip, ih xs ys h, List.zip_cons_cons]
        · rw [if_neg hb, if_neg hb, if_neg hb, hzip, ih xs ys h]

/-- **C6**: the four arrays returned by `simulate_multi` share the same
leading dimension after NaN-trajectory removal, and pruning preserves the
partner mapping: one mask (computed from `X_series`) is applied to all
four collections, so the zipped rows of the output form a sublist of the
zipped rows of the pre-pruning batch — row `i` of the returned states
corresponds to row `i` of the returned controls, targets and times. -/
theorem simulate_multi_pruning_aligned
    (sim : ℕ → List Np.Val → List Np.Val → Utility.Traj)
    (x0s xfs : List (List Np.Val)) (n_times nPoints : ℕ) :
    ((Utility.simulate_multi sim x0s xfs n_times nPoints).X_series.length
       = (Utility.simulate_multi sim x0s xfs n_times nPoints).U_series.length ∧
     (Utility.simulate_multi sim x0s xfs n_times nPoints).U_series.length
       = (Utility.simulate_multi sim x0s xfs n_times nPoints).R_series.length ∧
     (Utility.simulate_multi sim x0s xfs n_times nPoints).R_series.length
       = (Utility.simulate_multi sim x0s xfs n_times nPoints).T_series.length) ∧
    List.Sublist (Utility.zip4 (Utility.simulate_multi sim x0s xfs n_times nPoints))
      (Utility.zip4 (Utility.preSeries sim x0s xfs n_times nPoints)) := by
  have hX : (Utility.simulate_multi sim x0s xfs n_times nPoints).X_series
      = Utility.maskFilter
          ((Utility.preSeries sim x0s xfs n_times nPoints).X_series.map Utility.trajOk)
          (Utility.preSeries sim x0s xfs n_times nPoints).X_series := rfl
  have hU : (Utility.simulate_multi sim x0s xfs n_times nPoints).U_series
      = Utility.maskFilter
          ((Utility.preSeries sim x0s xfs n_times nPoints).X_series.map Utility.trajOk)
          (Utility.preSeries sim x0s xfs n_times nPoints).U_series := rfl
  have hR : (Utility.simulate_multi sim x0s xfs n_times nPoints).R_series
      = Utility.maskFilter
          ((Utility.preSeries sim x0s xfs n_times nPoints).X_series.map Utility.trajOk)
          (Utility.preSeries sim x0s xfs n_times nPoints).R_series := rfl
  have hT : (Utility.simulate_multi sim x0s xfs n_times nPoints).T_series
      = Utility.maskFilter
          ((Utility.preSeries sim x0s xfs n_times nPoints).X_series.map Utility.trajOk)
          (Utility.preSeries sim x0s xfs n_times nPoints).T_series := rfl
  have hlXU : (Utility.preSeries sim x0s xfs n_times nPoints).X_series.length
      = (Utility.preSeries sim x0s xfs n_times nPoints).U_series.length := by
    simp [Utility.preSeries]
  have hlUR : (Utility.preSeries sim x0s xfs n_times nPoints).U_series.length
      = (Utility.preSeries sim x0s xfs n_times nPoints).R_series.length := by
    simp [Utility.preSeries]
  have hlRT : (Utility.preSeries sim x0s xfs n_times nPoints).R_series.length
      = (Utility.preSeries sim x0s xfs n_times nPoints).T_series.length := by
    simp [Utility.preSeries]
  refine ⟨⟨?_, ?_, ?_⟩, ?_⟩
  · rw [hX, hU]; exact maskFilter_length_eq _ _ _ hlXU
  · rw [hU, hR]; exact maskFilter_length_eq _ _ _ hlUR
  · rw [hR, hT]; exact maskFilter_length_eq _ _ _ hlRT
  · have hzip4 : Utility.zip4 (Utility.simulate_multi sim x0s xfs n_times nPoints)
        = Utility.maskFilter
            ((Utility.preSeries sim x0s xfs n_times nPoints).X_series.map Utility.trajOk)
            (Utility.zip4 (Utility.preSeries sim x0s xfs n_times nPoints)) := by
      rw [Utility.zip4, Utility.zip4, hX, hU, hR, hT]
      rw [← maskFilter_zip _ _ _ hlRT]
      rw [← maskFilter_zip _ _ _ (by rw [List.length_zip]; omega)]
      rw [← maskFilter_zip _ _ _ (by rw [List.length_zip, List.length_zip]; omega)]
    rw [hzip4]
    exact maskFilter_sublist _ _

theorem simSteps_fst_length (P : Utility.SimParams)
    (step : List ℚ → List ℚ → ℚ → List ℚ)
    (ctrl : List ℚ → List ℚ → ℚ → ℕ → List ℚ)
    (nU nX : ℕ → List ℚ) (xf : List ℚ) (N : ℕ) (r : ℕ) :
    ∀ (now : ℕ) (x : List ℚ),
      (Utility.simSteps P step ctrl nU nX xf N now r x).1.length = r + 1 := by
  induction r with
  | zero => intro now x; rfl
  | succ r ih =>
    intro now x
    rw [Utility.simSteps]
    simp only [List.length_cons]
    rw [ih]

theorem simSteps_snd_length (P : Utility.SimParams)
    (step : List ℚ → List ℚ → ℚ → List ℚ)
    (ctrl : List ℚ → List ℚ → ℚ → ℕ → List ℚ)
    (nU nX : ℕ → List ℚ) (xf : List ℚ) (N : ℕ) (r : ℕ) :
    ∀ (now : ℕ) (x : List ℚ),
      (Utility.simSteps P step ctrl nU nX xf N now r x).2.length = r := by
  induction r with
  | zero => intro now x; rfl
  | succ r ih =>
    intro now x
    rw [Utility.simSteps]
    simp only [List.length_cons]
    rw [ih]

theorem simSteps_fst_head (P : Utility.SimParams)
    (step : List ℚ → List ℚ → ℚ → List ℚ)
    (ctrl : List ℚ → List ℚ → ℚ → ℕ → List ℚ)
    (nU nX : ℕ → List ℚ) (xf : List ℚ) (N now r : ℕ) (x : List ℚ) :
    (Utility.simSteps P step ctrl nU nX xf N now r x).1.head? = some x := by
  cases r <;> rfl

theorem ceilPos_pos (q : ℚ) (h : 0 < q) : 1 ≤ Utility.ceilPos q := by
  rw [Utility.ceilPos]
  have hc : (0 : ℤ) < ⌈q⌉ := Int.ceil_pos.mpr h
  omega

/-- **C7 (amended)**: a closed-loop `simulate` run with `Tf, dt > 0` returns
state and control sequences of length `ceil(Tf/dt) + 1` (the source uses
`np.ceil`, NOT floor), the first state row equals `x0` exactly, and the
last control sample repeats the penultimate one. -/
theorem simulate_cl_shape (P : Utility.SimParams)
    (step : List ℚ → List ℚ → ℚ → List ℚ)
    (ctrl : List ℚ → List ℚ → ℚ → ℕ → List ℚ)
    (nU nX : ℕ → List ℚ) (x0 xf : List ℚ)
    (hTf : 0 < P.Tf) (hdt : 0 < P.dt) :
    (Utility.simulate_cl P step ctrl nU nX x0 xf).1.length
      = Utility.ceilPos (P.Tf / P.dt) + 1 ∧
    (Utility.simulate_cl P step ctrl nU nX x0 xf).2.1.length
      = Utility.ceilPos (P.Tf / P.dt) + 1 ∧
    (Utility.simulate_cl P step ctrl nU nX x0 xf).1.head? = some x0 ∧
    (Utility.simulate_cl P step ctrl nU nX x0 xf).2.1.get?
        (Utility.ceilPos (P.Tf / P.dt))
      = (Utility.simulate_cl P step ctrl nU nX x0 xf).2.1.get?
        (Utility.ceilPos (P.Tf / P.dt) - 1) := by
  have hq : qdiv P.Tf P.dt = P.Tf / P.dt := qdiv_eq_div _ _
  have hN1 : 1 ≤ Utility.ceilPos (qdiv P.Tf P.dt) := by
    rw [hq]; exact ceilPos_pos _ (div_pos hTf hdt)
  have hX : (Utility.simulate_cl P step ctrl nU nX x0 xf).1
      = (Utility.simSteps P step ctrl nU nX xf (Utility.ceilPos (qdiv P.Tf P.dt)) 0
          (Utility.ceilPos (qdiv P.Tf P.dt)) x0).1 := rfl
  have hU : (Utility.simulate_cl P step ctrl nU nX x0 xf).2.1
      = (Utility.simSteps P step ctrl nU nX xf (Utility.ceilPos (qdiv P.Tf P.dt)) 0
          (Utility.ceilPos (qdiv P.Tf P.dt)) x0).2
        ++ [(Utility.simSteps P step ctrl nU nX xf (Utility.ceilPos (qdiv P.Tf P.dt)) 0
          (Utility.ceilPos (qdiv P.Tf P.dt)) x0).2.getLastD []] := rfl
  have hUlen : (Utility.simSteps P step ctrl nU nX xf (Utility.ceilPos (qdiv P.Tf P.dt)) 0
      (Utility.ceilPos (qdiv P.Tf P.dt)) x0).2.length
      = Utility.ceilPos (qdiv P.Tf P.dt) := simSteps_snd_length _ _ _ _ _ _ _ _ _ _
  have hUne : (Utility.simSteps P step ctrl nU nX xf (Utility.ceilPos (qdiv P.Tf P.dt)) 0
      (Utility.ceilPos (qdiv P.Tf P.dt)) x0).2 ≠ [] := by
    intro hnil
    rw [hnil] at hUlen
    simp at hUlen
    omega
  refine ⟨?_, ?_, ?_, ?_⟩
  · rw [hX, simSteps_fst_length, hq]
  · rw [hU, List.length_append, hUlen, hq]
    rfl
  · rw [hX, simSteps_fst_head]
  · rw [hU, ← hq]
    have e1 : ((Utility.simSteps P step ctrl nU nX xf
          (Utility.ceilPos (qdiv P.Tf P.dt)) 0 (Utility.ceilPos (qdiv P.Tf P.dt)) x0).2
        ++ [(Utility.simSteps P step ctrl nU nX xf
          (Utility.ceilPos (qdiv P.Tf P.dt)) 0 (Utility.ceilPos (qdiv P.Tf P.dt)) x0).2.getLastD
            []]).get? (Utility.ceilPos (qdiv P.Tf P.dt))
        = some ((Utility.simSteps P step ctrl nU nX xf
          (Utility.ceilPos (qdiv P.Tf P.dt)) 0
          (Utility.ceilPos (qdiv P.Tf P.dt)) x0).2.getLastD []) := by
      rw [List.get?_append_right (le_of_eq hUlen), hUlen, Nat.sub_self]
      rfl
    have e2 : ((Utility.simSteps P step ctrl nU nX xf
          (Utility.ceilPos (qdiv P.Tf P.dt)) 0 (Utility.ceilPos (qdiv P.Tf P.dt)) x0).2
        ++ [(Utility.simSteps P step ctrl nU nX xf
          (Utility.ceilPos (qdiv P.Tf P.dt)) 0 (Utility.ceilPos (qdiv P.Tf P.dt)) x0).2.getLastD
            []]).get? (Utility.ceilPos (qdiv P.Tf P.dt) - 1)
        = (Utility.simSteps P step ctrl nU nX xf
          (Utility.ceilPos (qdiv P.Tf P.dt)) 0
          (Utility.ceilPos (qdiv P.Tf P.dt)) x0).2.get?
            (Utility.ceilPos (qdiv P.Tf P.dt) - 1) := by
      apply List.get?_append
      omega
    obtain ⟨a, ha⟩ : ∃ a, (Utility.simSteps P step ctrl nU nX xf
        (Utility.ceilPos (qdiv P.Tf P.dt)) 0
        (Utility.ceilPos (qdiv P.Tf P.dt)) x0).2.getLast? = some a := by
      cases hcase : (Utility.simSteps P step ctrl nU nX xf
          (Utility.ceilPos (qdiv P.Tf P.dt)) 0
          (Utility.ceilPos (qdiv P.Tf P.dt)) x0).2.getLast? with
      | none => exact absurd (List.getLast?_eq_none.mp hcase) hUne
      | some a => exact ⟨a, rfl⟩
    have e3 : (Utility.simSteps P step ctrl nU nX xf
        (Utility.ceilPos (qdiv P.Tf P.dt)) 0
        (Utility.ceilPos (qdiv P.Tf P.dt)) x0).2.get?
          (Utility.ceilPos (qdiv P.Tf P.dt) - 1)
        = some a := by
      rw [← ha, List.getLast?_eq_get?, hUlen]
    have e4 : (Utility.simSteps P step ctrl nU nX xf
        (Utility.ceilPos (qdiv P.Tf P.dt)) 0
        (Utility.ceilPos (qdiv P.Tf P.dt)) x0).2.getLastD [] = a := by
      rw [List.getLastD_eq_getLast?, ha]
      rfl
    rw [e1, e2, e3, e4]

/-- **C7 (counterexample)**: with `Tf = 1`, `dt = 3/10` the closed-loop
state sequence has length `ceil(10/3) + 1 = 5`, while the claimed
`floor(Tf/dt) + 1` is `4`. -/
theorem simulate_cl_len_not_floor :
    (Utility.simulate_cl ⟨1, mkRat 3 10, 0, 0⟩ Fixtures.stepFrozen Fixtures.ctrlZero
        Fixtures.noiseZero Fixtures.noiseZero [0] [0]).1.length = 5 ∧
    (⌊qdiv 1 (mkRat 3 10)⌋).toNat + 1 = 4 ∧
    qdiv 1 (mkRat 3 10) = (1 : ℚ) / mkRat 3 10 :=
  ⟨by decide, by decide, qdiv_eq_div 1 (mkRat 3 10)⟩

/-- Witness for the amended C7 theorem at `Tf = 1`, `dt = 1/2`. -/
theorem simulate_cl_shape_witness :
    (0 : ℚ) < (⟨1, mkRat 1 2, 0, 0⟩ : Utility.SimParams).Tf ∧
    (0 : ℚ) < (⟨1, mkRat 1 2, 0, 0⟩ : Utility.SimParams).dt ∧
    ((Utility.simulate_cl ⟨1, mkRat 1 2, 0, 0⟩ Fixtures.stepFrozen Fixtures.ctrlZero
        Fixtures.noiseZero Fixtures.noiseZero [0] [0]).1.length
      = Utility.ceilPos ((1 : ℚ) / mkRat 1 2) + 1 ∧
    (Utility.simulate_cl ⟨1, mkRat 1 2, 0, 0⟩ Fixtures.stepFrozen Fixtures.ctrlZero
        Fixtures.noiseZero Fixtures.noiseZero [0] [0]).2.1.length
      = Utility.ceilPos ((1 : ℚ) / mkRat 1 2) + 1 ∧
    (Utility.simulate_cl ⟨1, mkRat 1 2, 0, 0⟩ Fixtures.stepFrozen Fixtures.ctrlZero
        Fixtures.noiseZero Fixtures.noiseZero [0] [0]).1.head? = some [0] ∧
    (Utility.simulate_cl ⟨1, mkRat 1 2, 0, 0⟩ Fixtures.stepFrozen Fixtures.ctrlZero
        Fixtures.noiseZero Fixtures.noiseZero [0] [0]).2.1.get?
        (Utility.ceilPos ((1 : ℚ) / mkRat 1 2))
      = (Utility.simulate_cl ⟨1, mkRat 1 2, 0, 0⟩ Fixtures.stepFrozen Fixtures.ctrlZero
        Fixtures.noiseZero Fixtures.noiseZero [0] [0]).2.1.get?
        (Utility.ceilPos ((1 : ℚ) / mkRat 1 2) - 1)) :=
  ⟨by decide, by decide,
    simulate_cl_shape ⟨1, mkRat 1 2, 0, 0⟩ Fixtures.stepFrozen Fixtures.ctrlZero
      Fixtures.noiseZero Fixtures.noiseZero [0] [0] (by decide) (by decide)⟩

theorem iterState_unfold (P : Utility.SimParams)
    (step : List ℚ → List ℚ → ℚ → List ℚ)
    (ctrl : List ℚ → List ℚ → ℚ → ℕ → List ℚ)
    (nU nX : ℕ → List ℚ) (xf : List ℚ) (N now i : ℕ) (x : List ℚ) :
    Utility.iterState P step ctrl nU nX xf N now (i + 1) x
      = Utility.iterState P step ctrl nU nX xf N (now + 1) i
          (Utility.stepNoisy P step ctrl nU nX xf N now x) := rfl

theorem iterState_succ (P : Utility.SimParams)
    (step : List ℚ → List ℚ → ℚ → List ℚ)
    (ctrl : List ℚ → List ℚ → ℚ → ℕ → List ℚ)
    (nU nX : ℕ → List ℚ) (xf : List ℚ) (N : ℕ) (i : ℕ) :
    ∀ (now : ℕ) (x : List ℚ),
      Utility.iterState P step ctrl nU nX xf N now (i + 1) x
        = Utility.stepNoisy P step ctrl nU nX xf N (now + i)
            (Utility.iterState P step ctrl nU nX xf N now i x) := by
  induction i with
  | zero =>
    intro now x
    rw [iterState_unfold]
    show Utility.stepNoisy P step ctrl nU nX xf N now x
      = Utility.stepNoisy P step ctrl nU nX xf N (now + 0) x
    rw [Nat.add_zero]
  | succ i ih =>
    intro now x
    rw [iterState_unfold, ih, ← iterState_unfold]
    have hidx : now + 1 + i = now + (i + 1) := by omega
    rw [hidx]

theorem simSteps_fst_get (P : Utility.SimParams)
    (step : List ℚ → List ℚ → ℚ → List ℚ)
    (ctrl : List ℚ → List ℚ → ℚ → ℕ → List ℚ)
    (nU nX : ℕ → List ℚ) (xf : List ℚ) (N : ℕ) (r : ℕ) :
    ∀ (now i : ℕ) (x : List ℚ), i ≤ r →
      (Utility.simSteps P step ctrl nU nX xf N now r x).1.get? i
        = some (Utility.iterState P step ctrl nU nX xf N now i x) := by
  induction r with
  | zero =>
    intro now i x h
    cases i with
    | zero => rfl
    | succ i => omega
  | succ r ih =>
    intro now i x h
    have hcons : (Utility.simSteps P step ctrl nU nX xf N now (r + 1) x).1
        = x :: (Utility.simSteps P step ctrl nU nX xf N (now + 1) r
            (Utility.stepNoisy P step ctrl nU nX xf N now x)).1 := rfl
    cases i with
    | zero => rw [hcons]; rfl
    | succ i =>
      rw [hcons, List.get?_cons_succ, ih (now + 1) i _ (by omega), iterState_unfold]

theorem simSteps_snd_get (P : Utility.SimParams)
    (step : List ℚ → List ℚ → ℚ → List ℚ)
    (ctrl : List ℚ → List ℚ → ℚ → ℕ → List ℚ)
    (nU nX : ℕ → List ℚ) (xf : List ℚ) (N : ℕ) (r : ℕ) :
    ∀ (now i : ℕ) (x : List ℚ), i < r →
      (Utility.simSteps P step ctrl nU nX xf N now r x).2.get? i
        = some (Utility.ctrlNoisy P ctrl nU xf N (now + i)
            (Utility.iterState P step ctrl nU nX xf N now i x)) := by
  induction r with
  | zero => intro now i x h; omega
  | succ r ih =>
    intro now i x h
    have hcons : (Utility.simSteps P step ctrl nU nX xf N now (r + 1) x).2
        = Utility.ctrlNoisy P ctrl nU xf N now x
          :: (Utility.simSteps P step ctrl nU nX xf N (now + 1) r
            (Utility.stepNoisy P step ctrl nU nX xf N now x)).2 := rfl
    cases i with
    | zero =>
      rw [hcons]
      show some (Utility.ctrlNoisy P ctrl nU xf N now x) = _
      rw [Nat.add_zero]
      rfl
    | succ i =>
      rw [hcons, List.get?_cons_succ, ih (now + 1) i _ (by omega), iterState_unfold]
      have hidx : now + 1 + i = now + (i + 1) := by omega
      rw [hidx]

/-- **C8**: in a closed-loop `simulate` step whose remaining time-to-go is
below `1/2` time units, the process noise is not applied, whatever
`noise_dyn` and whatever the noise stream: the next stored state is
exactly the model's one-step advance of the current state under the
(noisy) stored control. -/
theorem simulate_cl_noise_suppressed (P : Utility.SimParams)
    (step : List ℚ → List ℚ → ℚ → List ℚ)
    (ctrl : List ℚ → List ℚ → ℚ → ℕ → List ℚ)
    (nU nX : ℕ → List ℚ) (x0 xf : List ℚ) (now : ℕ)
    (hnow : now < Utility.ceilPos (qdiv P.Tf P.dt))
    (ht2g : Utility.time2go P (Utility.ceilPos (qdiv P.Tf P.dt)) now < mkRat 1 2) :
    ∀ xc uc,
      (Utility.simulate_cl P step ctrl nU nX x0 xf).1.get? now = some xc →
      (Utility.simulate_cl P step ctrl nU nX x0 xf).2.1.get? now = some uc →
      (Utility.simulate_cl P step ctrl nU nX x0 xf).1.get? (now + 1)
        = some (step xc uc P.dt) := by
  intro xc uc hxc huc
  have hXeq : (Utility.simulate_cl P step ctrl nU nX x0 xf).1
      = (Utility.simSteps P step ctrl nU nX xf (Utility.ceilPos (qdiv P.Tf P.dt)) 0
          (Utility.ceilPos (qdiv P.Tf P.dt)) x0).1 := rfl
  have hUeq : (Utility.simulate_cl P step ctrl nU nX x0 xf).2.1
      = (Utility.simSteps P step ctrl nU nX xf (Utility.ceilPos (qdiv P.Tf P.dt)) 0
          (Utility.ceilPos (qdiv P.Tf P.dt)) x0).2
        ++ [(Utility.simSteps P step ctrl nU nX xf (Utility.ceilPos (qdiv P.Tf P.dt)) 0
          (Utility.ceilPos (qdiv P.Tf P.dt)) x0).2.getLastD []] := rfl
  have hUlen : (Utility.simSteps P step ctrl nU nX xf (Utility.ceilPos (qdiv P.Tf P.dt)) 0
      (Utility.ceilPos (qdiv P.Tf P.dt)) x0).2.length
      = Utility.ceilPos (qdiv P.Tf P.dt) := simSteps_snd_length _ _ _ _ _ _ _ _ _ _
  rw [hXeq, simSteps_fst_get _ _ _ _ _ _ _ _ _ _ _ (le_of_lt hnow)] at hxc
  rw [hUeq, List.get?_append (by omega),
    simSteps_snd_get _ _ _ _ _ _ _ _ _ _ _ hnow] at huc
  have hxc' : xc = Utility.iterState P step ctrl nU nX xf
      (Utility.ceilPos (qdiv P.Tf P.dt)) 0 now x0 := (Option.some.inj hxc).symm
  have huc' : uc = Utility.ctrlNoisy P ctrl nU xf
      (Utility.ceilPos (qdiv P.Tf P.dt)) (0 + now)
      (Utility.iterState P step ctrl nU nX xf
        (Utility.ceilPos (qdiv P.Tf P.dt)) 0 now x0) := (Option.some.inj huc).symm
  rw [hXeq, simSteps_fst_get _ _ _ _ _ _ _ _ _ _ _ (by omega), iterState_succ]
  rw [Utility.stepNoisy]
  rw [if_neg (by rw [Nat.zero_add]; exact lt_asymm ht2g)]
  rw [hxc', huc', Nat.zero_add]

/-- Witness for C8: `Tf = dt = 2/5`, so at step 0 the time-to-go `2/5` is
below the settling threshold; despite `noise_dyn = 7` and a nonzero noise
stream, the next state is exactly the model step under the noisy control. -/
theorem simulate_cl_noise_suppressed_witness :
    0 < Utility.ceilPos (qdiv (mkRat 2 5) (mkRat 2 5)) ∧
    Utility.time2go ⟨mkRat 2 5, mkRat 2 5, 7, 5⟩
        (Utility.ceilPos (qdiv (mkRat 2 5) (mkRat 2 5))) 0 < mkRat 1 2 ∧
    (Utility.simulate_cl ⟨mkRat 2 5, mkRat 2 5, 7, 5⟩ Fixtures.stepScalar
        Fixtures.ctrlOne Fixtures.noiseThree Fixtures.noiseThree [0] [1]).1.get? (0 + 1)
      = some (Fixtures.stepScalar [0] [16] (mkRat 2 5)) :=
  ⟨by decide, by decide,
    simulate_cl_noise_suppressed ⟨mkRat 2 5, mkRat 2 5, 7, 5⟩ Fixtures.stepScalar
      Fixtures.ctrlOne Fixtures.noiseThree Fixtures.noiseThree [0] [1] 0
      (by decide) (by decide) [0] [16] (by decide) (by decide)⟩

theorem control_action_fail_step (nx nu N_steps : ℕ) (du : Np.Val)
    (x0 : List Np.Val) (gX gU : List (List Np.Val)) :
    Controllers.control_action_fail nx nu N_steps du x0 ⟨some gX, some gU⟩
      = (gU.head?, ⟨some gX.tail, some gU.tail⟩, Controllers.PlanSource.cached) := rfl

theorem failParams_drop (nx nu N_steps : ℕ) (du : Np.Val)
    (x0 : List Np.Val) (k : ℕ) :
    ∀ (gX gU : List (List Np.Val)),
      Controllers.failParams nx nu N_steps du x0 ⟨some gX, some gU⟩ k
        = ⟨some (gX.drop k), some (gU.drop k)⟩ := by
  induction k with
  | zero => intro gX gU; rfl
  | succ k ih =>
    intro gX gU
    show Controllers.failParams nx nu N_steps du x0
        (Controllers.control_action_fail nx nu N_steps du x0 ⟨some gX, some gU⟩).2.1 k = _
    have hstep : (Controllers.control_action_fail nx nu N_steps du x0
        ⟨some gX, some gU⟩).2.1 = ⟨some gX.tail, some gU.tail⟩ := rfl
    rw [hstep, ih]
    have h1 : gX.tail.drop k = gX.drop (k + 1) := by
      rw [← List.drop_one, List.drop_drop, Nat.add_comm]
    have h2 : gU.tail.drop k = gU.drop (k + 1) := by
      rw [← List.drop_one, List.drop_drop, Nat.add_comm]
    rw [h1, h2]

/-- **C10**: under consecutive solver failures with a saved plan of length
`L` in `param`, each of the first `L` `control_action` calls pops the next
cached row (never touching the configured default control — the branch is
always the cached fallback), and stores a one-row-shorter tail; after `L`
such calls the cached guess is empty, and the next failing call takes
`U[0]` of an empty array — an out-of-bounds access (`none`) — still on the
cached branch, not the default-control branch. -/
theorem control_action_fail_exhausts_cache (nx nu N_steps : ℕ) (du : Np.Val)
    (x0 : List Np.Val) (gX gU : List (List Np.Val)) (L : ℕ)
    (hX : gX.length = L) (hU : gU.length = L) :
    (∀ k, k < L →
      (Controllers.control_action_fail nx nu N_steps du x0
          (Controllers.failParams nx nu N_steps du x0 ⟨some gX, some gU⟩ k)).1
        = gU.get? k ∧
      (gU.get? k).isSome = true ∧
      (Controllers.control_action_fail nx nu N_steps du x0
          (Controllers.failParams nx nu N_steps du x0 ⟨some gX, some gU⟩ k)).2.2
        = Controllers.PlanSource.cached) ∧
    Controllers.failParams nx nu N_steps du x0 ⟨some gX, some gU⟩ L
      = ⟨some [], some []⟩ ∧
    (Controllers.control_action_fail nx nu N_steps du x0
        (Controllers.failParams nx nu N_steps du x0 ⟨some gX, some gU⟩ L)).1 = none ∧
    (Controllers.control_action_fail nx nu N_steps du x0
        (Controllers.failParams nx nu N_steps du x0 ⟨some gX, some gU⟩ L)).2.2
      = Controllers.PlanSource.cached := by
  have hdX : gX.drop L = [] := List.drop_eq_nil_of_le (le_of_eq hX)
  have hdU : gU.drop L = [] := List.drop_eq_nil_of_le (le_of_eq hU)
  refine ⟨?_, ?_, ?_, ?_⟩
  · intro k hk
    rw [failParams_drop, control_action_fail_step]
    refine ⟨?_, ?_, rfl⟩
    · show (gU.drop k).head? = gU.get? k
      rw [List.head?_drop]
      exact (List.get?_eq_getElem? _ _).symm
    · rw [List.get?_eq_get (by omega)]
      rfl
  · rw [failParams_drop, hdX, hdU]
  · rw [failParams_drop, hdX, hdU, control_action_fail_step]
    rfl
  · rw [failParams_drop, hdX, hdU, control_action_fail_step]

/-- Witness for C10 with a one-row cached plan: the first failing call
returns the cached row, the second finds an empty cache and `U[0]`
is out of bounds, still on the cached branch. -/
theorem control_action_fail_exhausts_cache_witness :
    ([[Np.Val.fin 1]] : List (List Np.Val)).length = 1 ∧
    ([[Np.Val.fin 2]] : List (List Np.Val)).length = 1 ∧
    ((∀ k, k < 1 →
      (Controllers.control_action_fail 1 1 3 Np.Val.nan [Np.Val.fin 0]
          (Controllers.failParams 1 1 3 Np.Val.nan [Np.Val.fin 0]
            ⟨some [[Np.Val.fin 1]], some [[Np.Val.fin 2]]⟩ k)).1
        = ([[Np.Val.fin 2]] : List (List Np.Val)).get? k ∧
      (([[Np.Val.fin 2]] : List (List Np.Val)).get? k).isSome = true ∧
      (Controllers.control_action_fail 1 1 3 Np.Val.nan [Np.Val.fin 0]
          (Controllers.failParams 1 1 3 Np.Val.nan [Np.Val.fin 0]
            ⟨some [[Np.Val.fin 1]], some [[Np.Val.fin 2]]⟩ k)).2.2
        = Controllers.PlanSource.cached) ∧
    Controllers.failParams 1 1 3 Np.Val.nan [Np.Val.fin 0]
        ⟨some [[Np.Val.fin 1]], some [[Np.Val.fin 2]]⟩ 1 = ⟨some [], some []⟩ ∧
    (Controllers.control_action_fail 1 1 3 Np.Val.nan [Np.Val.fin 0]
        (Controllers.failParams 1 1 3 Np.Val.nan [Np.Val.fin 0]
          ⟨some [[Np.Val.fin 1]], some [[Np.Val.fin 2]]⟩ 1)).1 = none ∧
    (Controllers.control_action_fail 1 1 3 Np.Val.nan [Np.Val.fin 0]
        (Controllers.failParams 1 1 3 Np.Val.nan [Np.Val.fin 0]
          ⟨some [[Np.Val.fin 1]], some [[Np.Val.fin 2]]⟩ 1)).2.2
      = Controllers.PlanSource.cached) :=
  ⟨rfl, rfl,
    control_action_fail_exhausts_cache 1 1 3 Np.Val.nan [Np.Val.fin 0]
      [[Np.Val.fin 1]] [[Np.Val.fin 2]] 1 rfl rfl⟩
